import Mathlib
set_option maxRecDepth 8000

/-!
Shallow embedding of the tabular pipeline of `src/streamlit_app.py`
(Personal Finance Tracker): column coercion and row dropping (lines 54-63),
headline metrics (lines 66-75), the grouped views and the in-place derived
columns (lines 85-171), and the CSV export (lines 174-183).

Cell values are modelled as strings; a missing cell (pandas NaN) is `none`.
Amounts are rational numbers (pandas floats hold decimal inputs exactly for
the magnitudes at stake here); dates are calendar triples.
-/

namespace FinanceTracker

/-- A calendar timestamp as produced by the date coercion step. -/
structure Date where
  year : Nat
  month : Nat
  dayOfMonth : Nat
deriving DecidableEq, Repr

/-- Whether a character is a decimal digit (kernel-computable form). -/
def isDigitChar (c : Char) : Bool :=
  48 ≤ c.toNat && c.toNat ≤ 57

/-- Read a non-empty all-digit character list as a natural number;
any other list yields `none`. -/
def digitsToNat? (cs : List Char) : Option Nat :=
  if cs.isEmpty ∨ cs.any (fun c => ¬ isDigitChar c) then none
  else some (cs.foldl (fun n c => 10 * n + (c.toNat - 48)) 0)

/-- Split a character list at every dash. -/
def splitDash : List Char → List (List Char)
  | [] => [[]]
  | c :: cs =>
      match splitDash cs with
      | [] => [[c]]
      | r :: rs => if c = '-' then [] :: r :: rs else (c :: r) :: rs

/-- Models `pd.to_datetime(col, errors="coerce")` (line 54) on ISO-formatted
cells: a cell parses when it is of the form YYYY-MM-DD with an in-range
month and day; any other cell coerces to missing (`none`, pandas NaT). -/
def parseDate (s : String) : Option Date :=
  match splitDash s.data with
  | [y, m, d] => do
      let yn ← digitsToNat? y
      let mn ← digitsToNat? m
      let dn ← digitsToNat? d
      if 1 ≤ mn ∧ mn ≤ 12 ∧ 1 ≤ dn ∧ dn ≤ 31 then some ⟨yn, mn, dn⟩ else none
  | _ => none

/-- ASCII lower-casing of one character, as Python `str.lower` acts on the
letters relevant here. -/
def lowerChar (c : Char) : Char :=
  if 65 ≤ c.toNat ∧ c.toNat ≤ 90 then Char.ofNat (c.toNat + 32) else c

/-- Models Python `str.lower()` on a cell. -/
def lowerStr (s : String) : String :=
  ⟨s.data.map lowerChar⟩

/-- Unsigned decimal literal: digits with an optional fractional part. -/
def parseUnsigned (cs : List Char) : Option ℚ :=
  let intPart := cs.takeWhile (fun c => c ≠ '.')
  match cs.dropWhile (fun c => c ≠ '.') with
  | [] => (digitsToNat? intPart).map (fun n => (n : ℚ))
  | _ :: frac => do
      let n ← digitsToNat? intPart
      let f ← digitsToNat? frac
      some ((n : ℚ) + (f : ℚ) / ((10 : ℚ) ^ frac.length))

/-- Models `pd.to_numeric(col, errors="coerce")` (line 57): a cell parses
when it is a signed decimal literal; any other cell coerces to missing
(`none`, pandas NaN). -/
def parseAmount (s : String) : Option ℚ :=
  match s.data with
  | '-' :: rest => (parseUnsigned rest).map (fun q => -q)
  | cs => parseUnsigned cs

/-- One row of the uploaded table restricted to the four selected columns
(`selected_date`, `selected_amount`, `selected_category`, `selected_type`);
`none` models a missing cell (NaN). -/
structure RawRow where
  date : Option String
  amount : Option String
  category : Option String
  ttype : Option String
deriving DecidableEq, Repr

/-- One row of the table that survives preprocessing: coerced date and
amount, raw category cell, and the type cell after `astype(str)` (line 63),
which on a present string cell is the identity — in particular the stored
type text is NOT lower-cased. -/
structure Transaction where
  date : Date
  amount : ℚ
  category : String
  ttype : String
deriving DecidableEq, Repr

/-- Lines 54-63: coerce the Date and Amount cells, then drop the row when
any of the four selected columns is missing
(`data.dropna(subset=[selected_date, selected_amount, selected_category,
selected_type])`, line 60). The Type cell is kept verbatim via
`astype(str)`. -/
def coerceRow (r : RawRow) : Option Transaction :=
  match r.date.bind parseDate, r.amount.bind parseAmount, r.category, r.ttype with
  | some d, some a, some c, some t => some ⟨d, a, c, t⟩
  | _, _, _, _ => none

/-- The preprocessing pass over the whole table (lines 54-63), keeping the
source row order of the retained rows. -/
def normalize (rows : List RawRow) : List Transaction :=
  rows.filterMap coerceRow

/-- Line 66: `data[data[selected_type].str.lower() == "income"][selected_amount].sum()`. -/
def total_income (t : List Transaction) : ℚ :=
  ((t.filter fun r => lowerStr r.ttype = "income").map fun r => r.amount).sum

/-- Line 67: `data[data[selected_type].str.lower() == "expense"][selected_amount].sum()`. -/
def total_expenses (t : List Transaction) : ℚ :=
  ((t.filter fun r => lowerStr r.ttype = "expense").map fun r => r.amount).sum

/-- Line 68: `net_savings = total_income - total_expenses`. -/
def net_savings (t : List Transaction) : ℚ :=
  total_income t - total_expenses t

/-- Line 73: the Total Expenses card shows `abs(total_expenses)`. -/
def displayed_total_expenses (t : List Transaction) : ℚ :=
  |total_expenses t|

/-- Line 74: the Total Income card shows `total_income` as is. -/
def displayed_total_income (t : List Transaction) : ℚ :=
  total_income t

/-- Line 75: the Net Savings card shows `net_savings` as is. -/
def displayed_net_savings (t : List Transaction) : ℚ :=
  net_savings t

/-- Distinct values of a list in order of first appearance. -/
def firstSeen : List String → List String
  | [] => []
  | x :: xs => x :: (firstSeen xs).filter (fun y => y ≠ x)

/-- Insert into an ascending list (lexicographic string order). -/
def insertAsc (x : String) : List String → List String
  | [] => [x]
  | y :: ys => if x < y then x :: y :: ys else y :: insertAsc x ys

/-- Ascending insertion sort on strings; models the ascending group-key
order of `DataFrame.groupby` (default `sort=True`). -/
def sortAsc : List String → List String
  | [] => []
  | x :: xs => insertAsc x (sortAsc xs)

/-- The group keys of `data.groupby(selected_category)`: the distinct
category values, in ascending order. -/
def categoryKeys (t : List Transaction) : List String :=
  sortAsc (firstSeen (t.map fun r => r.category))

/-- The summed amount of the rows carrying one category. -/
def categoryTotal (t : List Transaction) (c : String) : ℚ :=
  ((t.filter fun r => r.category = c).map fun r => r.amount).sum

/-- Line 85: `data.groupby(selected_category)[selected_amount].sum()` —
one (key, summed amount) pair per distinct category, keys ascending. -/
def category_summary (t : List Transaction) : List (String × ℚ) :=
  (categoryKeys t).map fun c => (c, categoryTotal t c)

/-- Running sums with a carried accumulator (pandas `Series.cumsum`). -/
def cumsum (acc : ℚ) : List ℚ → List ℚ
  | [] => []
  | x :: xs => (acc + x) :: cumsum (acc + x) xs

/-- Line 161: `data[selected_amount].cumsum()` — the Cumulative column,
one running sum per row, in the table's existing row order. -/
def cumulative (t : List Transaction) : List ℚ :=
  cumsum 0 (t.map fun r => r.amount)

/-- Insert into a list sorted descending by the summed amount; an incoming
entry passes ahead of entries of value at most its own, which makes the
sort stable in the sense of `Series.nlargest(keep="first")`. -/
def insertDescVal (x : String × ℚ) : List (String × ℚ) → List (String × ℚ)
  | [] => [x]
  | y :: ys => if y.2 ≤ x.2 then x :: y :: ys else y :: insertDescVal x ys

/-- Stable descending sort by summed amount. -/
def sortDescVal : List (String × ℚ) → List (String × ℚ)
  | [] => []
  | x :: xs => insertDescVal x (sortDescVal xs)

/-- Line 146: `data.groupby(selected_category)[selected_amount].sum().nlargest(5)`
— the n largest signed category sums, duplicated values resolved by keeping
the earlier entry of the ascending-key summary. -/
def top_categories (t : List Transaction) (n : Nat) : List (String × ℚ) :=
  (sortDescVal (category_summary t)).take n

/-- Modelled from the spec: category totals listed in first-seen key order
(the tie-break order the spec prescribes for the top-N view). -/
def specFirstSeenSummary (t : List Transaction) : List (String × ℚ) :=
  (firstSeen (t.map fun r => r.category)).map fun c => (c, categoryTotal t c)

/-- Modelled from the spec: stable insertion for a sort descending by the
MAGNITUDE of the summed amount. -/
def specInsertDescMag (x : String × ℚ) : List (String × ℚ) → List (String × ℚ)
  | [] => [x]
  | y :: ys => if |y.2| ≤ |x.2| then x :: y :: ys else y :: specInsertDescMag x ys

/-- Modelled from the spec: stable sort descending by magnitude. -/
def specSortDescMag : List (String × ℚ) → List (String × ℚ)
  | [] => []
  | x :: xs => specInsertDescMag x (specSortDescMag xs)

/-- Modelled from the spec: the top-N view as the spec words it — category
totals sorted descending by summed magnitude, ties broken by first-seen
category name. -/
def specTopCategoriesByMagnitude (t : List Transaction) (n : Nat) : List (String × ℚ) :=
  (specSortDescMag (specFirstSeenSummary t)).take n

/-- Insertion for the sort descending by signed value with ties resolved by
ascending (lexicographic) key. -/
def insertDescValLex (x : String × ℚ) : List (String × ℚ) → List (String × ℚ)
  | [] => [x]
  | y :: ys =>
      if y.2 < x.2 ∨ (y.2 = x.2 ∧ x.1 < y.1) then x :: y :: ys
      else y :: insertDescValLex x ys

/-- Sort descending by signed value, ties by ascending key. -/
def sortDescValLex : List (String × ℚ) → List (String × ℚ)
  | [] => []
  | x :: xs => insertDescValLex x (sortDescValLex xs)

/-- The top-N view described without appeal to stability: category totals
sorted descending by SIGNED summed amount, equal sums ordered by ascending
category name. -/
def topCategoriesSignedLex (t : List Transaction) (n : Nat) : List (String × ℚ) :=
  (sortDescValLex (category_summary t)).take n

/-- A cell of the preprocessed DataFrame as the chart code sees it:
text, a coerced number, a coerced timestamp, or a `to_period("M")`
month value. -/
inductive Cell where
  | str (s : String)
  | num (q : ℚ)
  | date (d : Date)
  | month (y m : Nat)
deriving DecidableEq, Repr

/-- The DataFrame `data` as a sequence of named columns in order, each
column carrying its cells top to bottom. -/
abbrev Frame := List (String × List Cell)

/-- Column read `data[c]`; a missing column reads as empty here (the
scripts only read columns that exist). -/
def getCol : Frame → String → List Cell
  | [], _ => []
  | p :: ps, c => if p.1 = c then p.2 else getCol ps c

/-- Column assignment `data[c] = v`: overwrite in place when the name
exists, otherwise append the new column at the end — pandas `__setitem__`
semantics. -/
def setCol : Frame → String → List Cell → Frame
  | [], c, v => [(c, v)]
  | p :: ps, c, v => if p.1 = c then (c, v) :: ps else p :: setCol ps c v

/-- Line 100: `data[selected_date].dt.to_period("M")` on one cell. -/
def monthOfCell : Cell → Cell
  | .date d => .month d.year d.month
  | c => c

/-- The numeric reading of a cell (the amount column after coercion is
entirely numeric). -/
def cellNum : Cell → ℚ
  | .num q => q
  | _ => 0

/-- Line 161 on a column: `Series.cumsum`. -/
def cumsumCells (l : List Cell) : List Cell :=
  (cumsum 0 (l.map cellNum)).map Cell.num

/-- The column assignments executed while the six visualizations are
rendered: line 100 `data["Month"] = data[selected_date].dt.to_period("M")`,
line 130 `data["Day"] = data[selected_date].dt.date` (a date already
carries no time of day in this model), and line 161
`data["Cumulative"] = data[selected_amount].cumsum()`. The group-and-sum
reads of lines 85, 101, 116, 131 and 146 build fresh Series and touch no
column. -/
def computeViews (f : Frame) (selected_date selected_amount : String) : Frame :=
  let f1 := setCol f "Month" ((getCol f selected_date).map monthOfCell)
  let f2 := setCol f1 "Day" (getCol f1 selected_date)
  setCol f2 "Cumulative" (cumsumCells (getCol f2 selected_amount))

/-- Digit character of one decimal digit. -/
def digitChar (n : Nat) : Char :=
  Char.ofNat (48 + n)

/-- Decimal digits of a natural number, most significant first
(fuel-structured so the kernel can evaluate it). -/
def natDigitsAux : Nat → Nat → List Char
  | 0, _ => []
  | fuel + 1, n => if n < 10 then [digitChar n] else natDigitsAux fuel (n / 10) ++ [digitChar (n % 10)]

/-- Decimal rendering of a natural number. -/
def renderNat (n : Nat) : List Char :=
  natDigitsAux (n + 1) n

/-- Decimal rendering of an integer. -/
def renderInt (i : Int) : List Char :=
  if i < 0 then '-' :: renderNat i.natAbs else renderNat i.natAbs

/-- Text rendering of a rational cell value (exact; the CSV round-trip
below is insensitive to the chosen number formatting). -/
def renderRat (q : ℚ) : List Char :=
  if q.den = 1 then renderInt q.num else renderInt q.num ++ ('/' :: renderNat q.den)

/-- Two-digit zero padding for month and day fields. -/
def pad2 (n : Nat) : List Char :=
  if n < 10 then '0' :: renderNat n else renderNat n

/-- ISO text rendering of a timestamp cell. -/
def renderDate (d : Date) : List Char :=
  renderNat d.year ++ ('-' :: pad2 d.month) ++ ('-' :: pad2 d.dayOfMonth)

/-- Text rendering of one cell as `to_csv` writes it. -/
def renderCell : Cell → List Char
  | .str s => s.data
  | .num q => renderRat q
  | .date d => renderDate d
  | .month y m => renderNat y ++ ('-' :: pad2 m)

/-- Whether a character forces CSV quoting: separator, quote or newline. -/
def isCsvSpecial (c : Char) : Bool :=
  c = ',' || c = '"' || c = '\n'

/-- Double every quote of a cell body (CSV quote escaping). -/
def dubQuotes : List Char → List Char
  | [] => []
  | c :: cs => if c = '"' then '"' :: '"' :: dubQuotes cs else c :: dubQuotes cs

/-- A cell as written by `to_csv`: quoted with doubled inner quotes when it
holds a separator, quote or newline, verbatim otherwise. -/
def escapeCell (s : List Char) : List Char :=
  if s.any isCsvSpecial then '"' :: (dubQuotes s ++ ['"']) else s

/-- One CSV record: the escaped cells joined by commas. -/
def writeRow : List (List Char) → List Char
  | [] => []
  | [c] => escapeCell c
  | c :: cs => escapeCell c ++ (',' :: writeRow cs)

/-- Whole CSV text: the records joined by newlines (header first). -/
def writeCsv : List (List (List Char)) → List Char
  | [] => []
  | [r] => writeRow r
  | r :: rs => writeRow r ++ ('\n' :: writeCsv rs)

/-- The header record of the export: the column names. -/
def renderHeader (f : Frame) : List (List Char) :=
  f.map fun p => p.1.data

/-- Number of data rows of a frame (all columns share it for frames built
by the pipeline). -/
def frameHeight : Frame → Nat
  | [] => 0
  | p :: _ => p.2.length

/-- The data records of the export, row-major: row i carries the rendered
i-th cell of every column. -/
def renderRows (f : Frame) : List (List (List Char)) :=
  (List.range (frameHeight f)).map fun i =>
    f.map fun p => renderCell ((p.2.drop i).headD (Cell.str ""))

/-- Lines 174-175: `df.to_csv(index=False).encode("utf-8")` — header
record then one record per row. -/
def convert_df (f : Frame) : List Char :=
  writeCsv (renderHeader f :: renderRows f)

/-- Reader mode of the CSV automaton: outside quotes, inside a quoted
cell, or just past a quote inside a quoted cell (which either doubles into
a literal quote or closes the cell). -/
inductive CsvMode where
  | plain
  | quoted
  | quotePending
deriving DecidableEq, Repr

/-- The CSV reading automaton behind `pd.read_csv` (line 35) restricted to
the default dialect; `field`, `row` and `rows` accumulate the current
cell, the current record and the finished records. -/
def csvRun : CsvMode → List Char → List (List Char) → List (List (List Char)) → List Char → List (List (List Char))
  | _, field, row, rows, [] => rows ++ [row ++ [field]]
  | .quoted, field, row, rows, c :: rest =>
      if c = '"' then csvRun .quotePending field row rows rest
      else csvRun .quoted (field ++ [c]) row rows rest
  | .quotePending, field, row, rows, c :: rest =>
      if c = '"' then csvRun .quoted (field ++ ['"']) row rows rest
      else if c = ',' then csvRun .plain [] (row ++ [field]) rows rest
      else if c = '\n' then csvRun .plain [] [] (rows ++ [row ++ [field]]) rest
      else csvRun .plain (field ++ [c]) row rows rest
  | .plain, field, row, rows, c :: rest =>
      if c = ',' then csvRun .plain [] (row ++ [field]) rows rest
      else if c = '\n' then csvRun .plain [] [] (rows ++ [row ++ [field]]) rest
      else if c = '"' ∧ field = [] then csvRun .quoted field row rows rest
      else csvRun .plain (field ++ [c]) row rows rest

/-- The delimited-text loader path (line 35): split the text into records
of cells; empty input is an empty table. -/
def parseCsv (cs : List Char) : List (List (List Char)) :=
  match cs with
  | [] => []
  | _ => csvRun .plain [] [] [] cs

/-- The two-row scenario input of spec section 8, carried with a present
category cell so that both rows survive the row-drop step. -/
def scenarioRows : List RawRow :=
  [⟨some "2024-01-05", some "-50.00", some "General", some "expense"⟩,
   ⟨some "2024-01-10", some "1000.00", some "General", some "income"⟩]

/-- The normalized table of the scenario input. -/
def scenarioTable : List Transaction :=
  normalize scenarioRows

/-- An input whose category sums make the magnitude order and the signed
order of the top-categories view differ, and whose equal sums first appear
in non-lexicographic order. -/
def mixedRows : List RawRow :=
  [⟨some "2024-01-05", some "-100.00", some "a", some "expense"⟩,
   ⟨some "2024-01-06", some "10.00", some "z", some "income"⟩,
   ⟨some "2024-01-07", some "10.00", some "b", some "income"⟩]

/-- The normalized table of `mixedRows`. -/
def mixedTable : List Transaction :=
  normalize mixedRows

/-- A row whose Date and Amount cells coerce while the category cell is
missing. -/
def droppedRow : RawRow :=
  ⟨some "2024-01-05", some "50", none, some "expense"⟩

/-- A one-row input with a capitalized Type cell. -/
def capitalRows : List RawRow :=
  [⟨some "2024-01-05", some "10", some "General", some "Income"⟩]

/-- A small normalized frame — four typed columns, two rows, one category
holding a separator and a quote — as the chart and export code receives
it. -/
def sampleFrame : Frame :=
  [("Date", [.date ⟨2024, 1, 5⟩, .date ⟨2024, 1, 10⟩]),
   ("Amount", [.num (-50), .num 1000]),
   ("Category", [.str "Food, drink", .str "Salary \"x\""]),
   ("Type", [.str "expense", .str "income"])]

/-- The income, expense and neither-typed amounts of a table sum to its
whole amount column. -/
theorem sum_split_by_type (t : List Transaction) :
    total_income t + total_expenses t
      + ((t.filter fun r => ¬ lowerStr r.ttype = "income" ∧ ¬ lowerStr r.ttype = "expense").map
          fun r => r.amount).sum
      = (t.map fun r => r.amount).sum := by
  induction t with
  | nil => simp [total_income, total_expenses]
  | cons r t ih =>
      by_cases h1 : lowerStr r.ttype = "income" <;> by_cases h2 : lowerStr r.ttype = "expense"
      · exact absurd (h1 ▸ h2) (by decide)
      · simp [total_income, total_expenses, List.filter_cons, h1, h2] at ih ⊢
        linarith [ih]
      · simp [total_income, total_expenses, List.filter_cons, h1, h2] at ih ⊢
        linarith [ih]
      · simp [total_income, total_expenses, List.filter_cons, h1, h2] at ih ⊢
        linarith [ih]

/-- Claim C1: for every normalized table, totalIncome sums the amounts of
the rows whose lower-cased Type is "income", totalExpenses sums those
whose lower-cased Type is "expense", rows of any other Type feed neither
total, and netSavings is totalIncome minus totalExpenses. -/
theorem C1_type_keyed_metrics (t : List Transaction) :
    total_income t = ((t.filter fun r => lowerStr r.ttype = "income").map fun r => r.amount).sum
  ∧ total_expenses t = ((t.filter fun r => lowerStr r.ttype = "expense").map fun r => r.amount).sum
  ∧ total_income t + total_expenses t
      + ((t.filter fun r => ¬ lowerStr r.ttype = "income" ∧ ¬ lowerStr r.ttype = "expense").map
          fun r => r.amount).sum
      = (t.map fun r => r.amount).sum
  ∧ net_savings t = total_income t - total_expenses t :=
  ⟨rfl, rfl, sum_split_by_type t, rfl⟩

/-- Claim C2 counterexample: a row whose Date and Amount cells both coerce
is still dropped, because its missing Category cell sits in the `dropna`
subset of line 60. -/
theorem C2_counterexample :
    (droppedRow.date.bind parseDate).isSome
  ∧ (droppedRow.amount.bind parseAmount).isSome
  ∧ normalize [droppedRow] = [] := by
  with_unfolding_all decide

/-- Claim C2 (amended): a row of the input appears in the normalized table
exactly when its coerced image exists, and the coerced image exists exactly
when Date and Amount coerce successfully AND the Category and Type cells
are both present — a missing Category or Type cell also drops the row. -/
theorem C2_row_drop_policy (rows : List RawRow) (tx : Transaction) (r : RawRow) :
    (tx ∈ normalize rows ↔ ∃ r' ∈ rows, coerceRow r' = some tx)
  ∧ ((coerceRow r).isSome ↔
      (r.date.bind parseDate).isSome ∧ (r.amount.bind parseAmount).isSome
        ∧ r.category.isSome ∧ r.ttype.isSome) := by
  constructor
  · simp [normalize, List.mem_filterMap]
  · unfold coerceRow
    rcases hd : r.date.bind parseDate with _ | d <;>
      rcases ha : r.amount.bind parseAmount with _ | a <;>
      rcases hc : r.category with _ | c <;>
      rcases ht : r.ttype with _ | ty <;>
      simp

/-- Claim C3 counterexample: on the spec scenario input the code computes
netSavings 1050, not 950 (and the signed expense total is -50, not 50). -/
theorem C3_counterexample :
    ¬ (total_expenses scenarioTable = 50 ∧ total_income scenarioTable = 1000
        ∧ net_savings scenarioTable = 950) := by
  with_unfolding_all decide

/-- Claim C3 (amended): on the scenario input the computed metrics are
totalIncome 1000, signed totalExpenses -50 (displayed as 50 through the
absolute value of line 73), and netSavings 1000 - (-50) = 1050. -/
theorem C3_scenario_metrics :
    total_income scenarioTable = 1000
  ∧ total_expenses scenarioTable = -50
  ∧ displayed_total_expenses scenarioTable = 50
  ∧ net_savings scenarioTable = 1050 := by
  with_unfolding_all decide

/-- Claim C10: the displayed Total Expenses is the absolute value of the
signed expense sum while netSavings subtracts the signed sum itself, so
whenever the expense rows sum to a negative value the displayed Net
Savings equals displayed Total Income plus displayed Total Expenses. -/
theorem C10_displayed_net_adds_expenses (t : List Transaction) :
    displayed_total_expenses t = |total_expenses t|
  ∧ net_savings t = total_income t - total_expenses t
  ∧ (total_expenses t < 0 →
      displayed_net_savings t = displayed_total_income t + displayed_total_expenses t) := by
  refine ⟨rfl, rfl, fun h => ?_⟩
  unfold displayed_net_savings displayed_total_income displayed_total_expenses net_savings
  rw [abs_of_neg h]
  ring

/-- Membership in `firstSeen` is membership in the original list. -/
theorem mem_firstSeen {a : String} : ∀ {l : List String}, a ∈ firstSeen l ↔ a ∈ l := by
  intro l
  induction l with
  | nil => simp [firstSeen]
  | cons x xs ih =>
      simp only [firstSeen, List.mem_cons, List.mem_filter]
      constructor
      · rintro (rfl | ⟨h, _⟩)
        · exact .inl rfl
        · exact .inr (ih.mp h)
      · rintro (rfl | h)
        · exact .inl rfl
        · by_cases hx : a = x
          · exact .inl hx
          · exact .inr ⟨ih.mpr h, by simpa using hx⟩

/-- `firstSeen` lists are duplicate-free. -/
theorem nodup_firstSeen : ∀ (l : List String), (firstSeen l).Nodup
  | [] => by simp [firstSeen]
  | x :: xs => by
      simp only [firstSeen, List.nodup_cons]
      refine ⟨fun hmem => ?_, (nodup_firstSeen xs).filter _⟩
      have := (List.mem_filter.mp hmem).2
      simp at this

/-- Membership through ascending insertion. -/
theorem mem_insertAsc {a x : String} : ∀ {l : List String}, a ∈ insertAsc x l ↔ a = x ∨ a ∈ l := by
  intro l
  induction l with
  | nil => simp [insertAsc]
  | cons y ys ih =>
      by_cases h : x < y
      · simp [insertAsc, h]
      · simp only [insertAsc, if_neg h, List.mem_cons, ih]
        tauto

/-- Membership through the ascending sort. -/
theorem mem_sortAsc {a : String} : ∀ {l : List String}, a ∈ sortAsc l ↔ a ∈ l := by
  intro l
  induction l with
  | nil => simp [sortAsc]
  | cons x xs ih => simp [sortAsc, mem_insertAsc, ih]

/-- Ascending insertion keeps a list duplicate-free. -/
theorem nodup_insertAsc {x : String} :
    ∀ {l : List String}, l.Nodup → x ∉ l → (insertAsc x l).Nodup := by
  intro l
  induction l with
  | nil => intro _ _; simp [insertAsc]
  | cons y ys ih =>
      intro hnd hx
      rcases List.nodup_cons.mp hnd with ⟨hy, hys⟩
      by_cases h : x < y
      · rw [insertAsc, if_pos h]
        refine List.nodup_cons.mpr ⟨?_, hnd⟩
        intro hmem
        rcases List.mem_cons.mp hmem with rfl | hmem'
        · exact hx (by simp)
        · exact hx (by simp [hmem'])
      · rw [insertAsc, if_neg h]
        refine List.nodup_cons.mpr ⟨?_, ih hys (fun hc => hx (by simp [hc]))⟩
        intro hmem
        rcases mem_insertAsc.mp hmem with rfl | hmem'
        · exact hx (by simp)
        · exact hy hmem'

/-- The ascending sort keeps a list duplicate-free. -/
theorem nodup_sortAsc : ∀ (l : List String), l.Nodup → (sortAsc l).Nodup
  | [], _ => by simp [sortAsc]
  | x :: xs, hnd => by
      rcases List.nodup_cons.mp hnd with ⟨hx, hxs⟩
      exact nodup_insertAsc (nodup_sortAsc xs hxs) (fun hc => hx (mem_sortAsc.mp hc))

/-- Summing an indicator list over duplicate-free keys hits its value once. -/
theorem sum_single_hit (v : ℚ) (a : String) :
    ∀ (ks : List String), ks.Nodup → a ∈ ks →
      (ks.map fun c => if a = c then v else 0).sum = v := by
  intro ks
  induction ks with
  | nil => intro _ h; simp at h
  | cons k ks ih =>
      intro hnd hmem
      rcases List.nodup_cons.mp hnd with ⟨hk, hks⟩
      rcases List.mem_cons.mp hmem with rfl | hmem'
      · have hzero : (ks.map fun c => if a = c then v else 0).sum = 0 := by
          apply List.sum_eq_zero
          intro x hx
          rcases List.mem_map.mp hx with ⟨c, hc, rfl⟩
          have : a ≠ c := fun h => hk (h ▸ hc)
          simp [this]
        simp [hzero]
      · have hne : a ≠ k := fun h => hk (h ▸ hmem')
        simp [if_neg hne, ih hks hmem']

/-- Pointwise sums distribute over a mapped list. -/
theorem sum_map_add_split (f g : String → ℚ) :
    ∀ (ks : List String), (ks.map fun c => f c + g c).sum = (ks.map f).sum + (ks.map g).sum := by
  intro ks
  induction ks with
  | nil => simp
  | cons k ks ih => simp [ih]; ring

/-- Core conservation: over any duplicate-free key list covering every
row's category, the per-key totals sum to the whole amount column. -/
theorem sum_categoryTotal (ks : List String) (hnd : ks.Nodup) :
    ∀ (t : List Transaction), (∀ r ∈ t, r.category ∈ ks) →
      (ks.map fun c => categoryTotal t c).sum = (t.map fun r => r.amount).sum := by
  intro t
  induction t with
  | nil =>
      intro _
      have hz : ∀ ks' : List String, (ks'.map fun _ => (0 : ℚ)).sum = 0 := by
        intro ks'
        induction ks' <;> simp [*]
      simp only [categoryTotal, List.filter_nil, List.map_nil, List.sum_nil]
      exact hz ks
  | cons r t ih =>
      intro hcov
      have hr : r.category ∈ ks := hcov r (by simp)
      have hcov' : ∀ x ∈ t, x.category ∈ ks := fun x hx => hcov x (by simp [hx])
      have hsplit : ∀ c, categoryTotal (r :: t) c
          = (if r.category = c then r.amount else 0) + categoryTotal t c := by
        intro c
        by_cases h : r.category = c
        · simp [categoryTotal, List.filter_cons, h]
        · simp [categoryTotal, List.filter_cons, h]
      calc (ks.map fun c => categoryTotal (r :: t) c).sum
          = (ks.map fun c => (if r.category = c then r.amount else 0) + categoryTotal t c).sum := by
            congr 1
            exact List.map_congr_left fun c _ => hsplit c
        _ = (ks.map fun c => if r.category = c then r.amount else 0).sum
              + (ks.map fun c => categoryTotal t c).sum :=
            sum_map_add_split _ _ ks
        _ = r.amount + (t.map fun x => x.amount).sum := by
            rw [sum_single_hit r.amount r.category ks hnd hr, ih hcov']
        _ = ((r :: t).map fun x => x.amount).sum := by simp

/-- Claim C4: the per-category totals of the category summary sum to the
total of the amount column over the whole normalized table. -/
theorem C4_aggregation_conservation (t : List Transaction) :
    ((category_summary t).map fun p => p.2).sum = (t.map fun r => r.amount).sum := by
  have hnd : (categoryKeys t).Nodup :=
    nodup_sortAsc _ (nodup_firstSeen _)
  have hcov : ∀ r ∈ t, r.category ∈ categoryKeys t := by
    intro r hr
    rw [categoryKeys]
    exact mem_sortAsc.mpr (mem_firstSeen.mpr (List.mem_map_of_mem _ hr))
  have := sum_categoryTotal (categoryKeys t) hnd t hcov
  simpa [category_summary, List.map_map, Function.comp] using this

/-- Lengths through `cumsum`. -/
theorem cumsum_length : ∀ (l : List ℚ) (acc : ℚ), (cumsum acc l).length = l.length
  | [], _ => rfl
  | _ :: xs, acc => by simp [cumsum, cumsum_length xs]

/-- Element i of `cumsum` is the accumulator plus the sum of the first
i+1 inputs. -/
theorem cumsum_getD : ∀ (l : List ℚ) (acc : ℚ) (i : Nat), i < l.length →
    (cumsum acc l).getD i 0 = acc + (l.take (i + 1)).sum := by
  intro l
  induction l with
  | nil => intro acc i h; simp at h
  | cons x xs ih =>
      intro acc i h
      cases i with
      | zero => simp [cumsum]
      | succ i =>
          have h' : i < xs.length := by simpa using h
          rw [show cumsum acc (x :: xs) = (acc + x) :: cumsum (acc + x) xs from rfl,
            List.getD_cons_succ, ih (acc + x) i h']
          simp [add_assoc]

/-- The last entry of `cumsum` is the accumulator plus the whole sum. -/
theorem cumsum_getLast? : ∀ (l : List ℚ), l ≠ [] → ∀ (acc : ℚ),
    (cumsum acc l).getLast? = some (acc + l.sum) := by
  intro l
  induction l with
  | nil => intro h; exact absurd rfl h
  | cons x xs ih =>
      intro _ acc
      cases xs with
      | nil => simp [cumsum]
      | cons y ys =>
          rw [show cumsum acc (x :: y :: ys)
              = (acc + x) :: (acc + x + y) :: cumsum (acc + x + y) ys from rfl,
            List.getLast?_cons_cons]
          have := ih (by simp) (acc + x)
          rw [show cumsum (acc + x) (y :: ys)
              = (acc + x + y) :: cumsum (acc + x + y) ys from rfl] at this
          rw [this]
          congr 1
          simp [List.sum_cons]
          ring

/-- Claim C5: the cumulative series has one entry per row, entry i is the
sum of the amounts of rows 0..i in the table's existing order (no
re-sorting), and its last entry is the total amount sum. -/
theorem C5_cumulative_series (t : List Transaction) (i : Nat) (h : i < t.length) :
    (cumulative t).length = t.length
  ∧ (cumulative t).getD i 0 = ((t.map fun r => r.amount).take (i + 1)).sum
  ∧ (t ≠ [] → (cumulative t).getLast? = some ((t.map fun r => r.amount).sum)) := by
  refine ⟨?_, ?_, ?_⟩
  · simpa [cumulative] using cumsum_length (t.map fun r => r.amount) 0
  · have := cumsum_getD (t.map fun r => r.amount) 0 i (by simpa using h)
    simpa [cumulative] using this
  · intro hne
    have hmap : (t.map fun r => r.amount) ≠ [] := by simpa using hne
    simpa [cumulative] using cumsum_getLast? (t.map fun r => r.amount) hmap 0

/-- Claim C5 witness: the cumulative series of the scenario table,
evaluated at row index 1. -/
theorem C5_witness :
    1 < scenarioTable.length
  ∧ ((cumulative scenarioTable).length = scenarioTable.length
      ∧ (cumulative scenarioTable).getD 1 0
          = ((scenarioTable.map fun r => r.amount).take 2).sum
      ∧ (scenarioTable ≠ [] →
          (cumulative scenarioTable).getLast?
            = some ((scenarioTable.map fun r => r.amount).sum))) :=
  ⟨by with_unfolding_all decide,
   C5_cumulative_series scenarioTable 1 (by with_unfolding_all decide)⟩

/-- Ascending insertion below a strictly ascending chain stays strictly
ascending when the inserted key is fresh. -/
theorem pairwise_insertAsc {x : String} :
    ∀ {l : List String}, l.Pairwise (· < ·) → x ∉ l → (insertAsc x l).Pairwise (· < ·) := by
  intro l
  induction l with
  | nil => intro _ _; simp [insertAsc]
  | cons y ys ih =>
      intro hp hx
      rcases List.pairwise_cons.mp hp with ⟨hy, hys⟩
      by_cases h : x < y
      · rw [insertAsc, if_pos h]
        refine List.pairwise_cons.mpr ⟨?_, hp⟩
        intro z hz
        rcases List.mem_cons.mp hz with rfl | hz'
        · exact h
        · exact lt_trans h (hy z hz')
      · rw [insertAsc, if_neg h]
        have hxy : y < x := by
          rcases lt_or_eq_of_le (not_lt.mp h) with hlt | heq
          · exact hlt
          · exact absurd heq.symm (fun hc => hx (by simp [hc]))
        refine List.pairwise_cons.mpr ⟨?_, ih hys (fun hc => hx (by simp [hc]))⟩
        intro z hz
        rcases mem_insertAsc.mp hz with rfl | hz'
        · exact hxy
        · exact hy z hz'

/-- Sorting a duplicate-free key list yields a strictly ascending chain. -/
theorem pairwise_sortAsc : ∀ (l : List String), l.Nodup → (sortAsc l).Pairwise (· < ·)
  | [], _ => by simp [sortAsc]
  | x :: xs, hnd => by
      rcases List.nodup_cons.mp hnd with ⟨hx, hxs⟩
      exact pairwise_insertAsc (pairwise_sortAsc xs hxs) (fun hc => hx (mem_sortAsc.mp hc))

/-- Entries of a descending insertion come from the inserted entry or the
base list. -/
theorem mem_insertDescVal {a x : String × ℚ} :
    ∀ {l : List (String × ℚ)}, a ∈ insertDescVal x l → a = x ∨ a ∈ l := by
  intro l
  induction l with
  | nil =>
      intro h
      simpa [insertDescVal] using h
  | cons y ys ih =>
      intro h
      by_cases hc : y.2 ≤ x.2
      · rw [insertDescVal, if_pos hc] at h
        rcases List.mem_cons.mp h with rfl | h'
        · exact .inl rfl
        · exact .inr h'
      · rw [insertDescVal, if_neg hc] at h
        rcases List.mem_cons.mp h with rfl | h'
        · exact .inr (by simp)
        · rcases ih h' with rfl | h2
          · exact .inl rfl
          · exact .inr (by simp [h2])

/-- Entries of the stable descending sort come from the input list. -/
theorem mem_sortDescVal {a : String × ℚ} :
    ∀ {l : List (String × ℚ)}, a ∈ sortDescVal l → a ∈ l := by
  intro l
  induction l with
  | nil =>
      intro h
      simp [sortDescVal] at h
  | cons x xs ih =>
      intro h
      rcases mem_insertDescVal h with rfl | h'
      · simp
      · simp [ih h']

/-- When the inserted entry's key precedes the key of every equal-valued
entry, the stable descending insertion agrees with the tie-aware one. -/
theorem insertDescVal_eq_lex (x : String × ℚ) :
    ∀ (l : List (String × ℚ)), (∀ y ∈ l, y.2 = x.2 → x.1 < y.1) →
      insertDescVal x l = insertDescValLex x l := by
  intro l
  induction l with
  | nil => intro _; rfl
  | cons y ys ih =>
      intro h
      by_cases hc : y.2 ≤ x.2
      · rcases lt_or_eq_of_le hc with hlt | heq
        · rw [insertDescVal, if_pos hc, insertDescValLex, if_pos (.inl hlt)]
        · have hx1 : x.1 < y.1 := h y (by simp) heq
          rw [insertDescVal, if_pos hc, insertDescValLex, if_pos (.inr ⟨heq, hx1⟩)]
      · have hnl : ¬ (y.2 < x.2 ∨ (y.2 = x.2 ∧ x.1 < y.1)) := by
          rintro (h1 | ⟨h1, _⟩)
          · exact hc (le_of_lt h1)
          · exact hc (le_of_eq h1)
        rw [insertDescVal, if_neg hc, insertDescValLex, if_neg hnl,
          ih (fun z hz hz2 => h z (by simp [hz]) hz2)]

/-- Over an input whose keys strictly ascend, the stable descending sort
agrees with the sort that resolves value ties by ascending key. -/
theorem sortDescVal_eq_lex :
    ∀ (l : List (String × ℚ)), l.Pairwise (fun a b => a.1 < b.1) →
      sortDescVal l = sortDescValLex l := by
  intro l
  induction l with
  | nil => intro _; rfl
  | cons x xs ih =>
      intro hp
      rcases List.pairwise_cons.mp hp with ⟨hx, hxs⟩
      have hstep : insertDescVal x (sortDescVal xs) = insertDescValLex x (sortDescVal xs) := by
        apply insertDescVal_eq_lex
        intro y hy _
        exact hx y (mem_sortDescVal hy)
      calc sortDescVal (x :: xs)
          = insertDescVal x (sortDescVal xs) := rfl
        _ = insertDescValLex x (sortDescVal xs) := hstep
        _ = insertDescValLex x (sortDescValLex xs) := by rw [ih hxs]
        _ = sortDescValLex (x :: xs) := rfl

/-- The category summary's keys strictly ascend. -/
theorem pairwise_category_summary (t : List Transaction) :
    (category_summary t).Pairwise (fun a b => a.1 < b.1) := by
  have h1 : (categoryKeys t).Pairwise (· < ·) :=
    pairwise_sortAsc _ (nodup_firstSeen _)
  rw [category_summary]
  exact List.pairwise_map.mpr (h1.imp fun h => h)

/-- Claim C7 counterexample: on `mixedTable` the code's top-categories
view differs from the spec's magnitude-sorted, first-seen-tie-break view
(the code yields the rows b, z, a; magnitude order with first-seen ties
yields a, z, b). -/
theorem C7_counterexample :
    top_categories mixedTable 5 ≠ specTopCategoriesByMagnitude mixedTable 5 := by
  with_unfolding_all decide

/-- Claim C7 (amended): the top-N categories view lists the first N
category totals sorted descending by SIGNED summed amount (not magnitude),
with equal sums ordered by ascending category name (the groupby key order),
not by first appearance. -/
theorem C7_top_categories (t : List Transaction) (n : Nat) :
    top_categories t n = topCategoriesSignedLex t n := by
  rw [top_categories, topCategoriesSignedLex,
    sortDescVal_eq_lex _ (pairwise_category_summary t)]

/-- The coercion step stores the raw Type cell text unchanged. -/
theorem coerceRow_ttype {r : RawRow} {tx : Transaction} (h : coerceRow r = some tx) :
    r.ttype = some tx.ttype := by
  revert h
  unfold coerceRow
  rcases hd : r.date.bind parseDate with _ | d <;>
    rcases ha : r.amount.bind parseAmount with _ | a <;>
    rcases hc : r.category with _ | c <;>
    rcases ht : r.ttype with _ | ty <;>
    intro h <;>
    simp at h
  cases tx
  simp at h
  simp [ht, h.2.2.2]

/-- Claim C8 counterexample: a capitalized Type cell is stored verbatim,
so the stored Type column is not all lower-case. -/
theorem C8_counterexample :
    ((normalize capitalRows).map fun r => r.ttype) = ["Income"]
  ∧ ¬ (∀ r ∈ normalize capitalRows, r.ttype = lowerStr r.ttype) := by
  with_unfolding_all decide

/-- Claim C8 (amended): the normalizer stores each retained row's Type
cell verbatim (`astype(str)` only converts to text); lower-casing happens
only inside the metric comparisons of lines 66-67, not in the stored
column. -/
theorem C8_type_passthrough (rows : List RawRow) :
    ((normalize rows).map fun r => r.ttype)
      = ((rows.filter fun r => (coerceRow r).isSome).map fun r => r.ttype.getD "") := by
  induction rows with
  | nil => rfl
  | cons r rows ih =>
      cases h : coerceRow r with
      | none =>
          simp only [normalize, List.filterMap_cons, List.filter_cons, h, Option.isSome_none,
            Bool.false_eq_true, if_false] at ih ⊢
          exact ih
      | some tx =>
          have hty : r.ttype = some tx.ttype := coerceRow_ttype h
          simp only [normalize, List.filterMap_cons, List.filter_cons, h, Option.isSome_some,
            if_true, List.map_cons] at ih ⊢
          rw [hty]
          simp [ih]

/-- Assigning a fresh column name appends the column at the end. -/
theorem setCol_of_not_mem {c : String} {v : List Cell} :
    ∀ {f : Frame}, c ∉ f.map Prod.fst → setCol f c v = f ++ [(c, v)] := by
  intro f
  induction f with
  | nil => intro _; rfl
  | cons p ps ih =>
      intro h
      have h1 : ¬ p.1 = c := by
        intro hc
        apply h
        rw [List.map_cons, hc]
        exact List.mem_cons_self _ _
      have h2 : c ∉ ps.map Prod.fst := fun hc => h (by simp [hc])
      simp only [setCol, if_neg h1, ih h2, List.cons_append]

/-- Reading a column other than a just-appended one sees the old frame. -/
theorem getCol_append_single {c x : String} {v : List Cell} (hne : c ≠ x) :
    ∀ (f : Frame), getCol (f ++ [(c, v)]) x = getCol f x := by
  intro f
  induction f with
  | nil => simp [getCol, hne]
  | cons p ps ih =>
      by_cases h : p.1 = x <;> simp [getCol, h, ih]

/-- Claim C6 counterexample: computing the chart views changes the
table's column list — the frame gains Month, Day and Cumulative columns,
so the computation is not read-only. -/
theorem C6_counterexample :
    (computeViews sampleFrame "Date" "Amount").map Prod.fst ≠ sampleFrame.map Prod.fst := by
  decide

/-- Claim C6 (amended): the groupby views build fresh series, but the
monthly, daily and cumulative charts assign derived columns into the table
in place; when the three derived names are fresh, the result is exactly
the original frame — all original columns, rows and cell values
unchanged — extended with the appended Month, Day and Cumulative
columns. -/
theorem C6_views_append_columns (f : Frame) (sd sa : String)
    (hsd : sd ∈ f.map Prod.fst) (hsa : sa ∈ f.map Prod.fst)
    (hM : "Month" ∉ f.map Prod.fst) (hD : "Day" ∉ f.map Prod.fst)
    (hC : "Cumulative" ∉ f.map Prod.fst) :
    computeViews f sd sa
      = f ++ [("Month", (getCol f sd).map monthOfCell),
              ("Day", getCol f sd),
              ("Cumulative", cumsumCells (getCol f sa))] := by
  have hMsd : "Month" ≠ sd := fun hc => hM (hc ▸ hsd)
  have hMsa : "Month" ≠ sa := fun hc => hM (hc ▸ hsa)
  have hDsa : "Day" ≠ sa := fun hc => hD (hc ▸ hsa)
  have hD1 : "Day" ∉ (f ++ [("Month", (getCol f sd).map monthOfCell)]).map Prod.fst := by
    simp [hD]
  have hC2 : "Cumulative"
      ∉ ((f ++ [("Month", (getCol f sd).map monthOfCell)])
          ++ [("Day", getCol (f ++ [("Month", (getCol f sd).map monthOfCell)]) sd)]).map Prod.fst := by
    simp [hC]
  rw [computeViews, setCol_of_not_mem hM, setCol_of_not_mem hD1, setCol_of_not_mem hC2,
    getCol_append_single hMsd, getCol_append_single hDsa, getCol_append_single hMsa]
  simp

/-- Claim C6 witness: the amended frame equation evaluated on the sample
frame. -/
theorem C6_witness :
    ("Date" ∈ sampleFrame.map Prod.fst)
  ∧ ("Amount" ∈ sampleFrame.map Prod.fst)
  ∧ ("Month" ∉ sampleFrame.map Prod.fst)
  ∧ ("Day" ∉ sampleFrame.map Prod.fst)
  ∧ ("Cumulative" ∉ sampleFrame.map Prod.fst)
  ∧ computeViews sampleFrame "Date" "Amount"
      = sampleFrame ++ [("Month", (getCol sampleFrame "Date").map monthOfCell),
                        ("Day", getCol sampleFrame "Date"),
                        ("Cumulative", cumsumCells (getCol sampleFrame "Amount"))] :=
  ⟨by decide, by decide, by decide, by decide, by decide,
   C6_views_append_columns sampleFrame "Date" "Amount"
     (by decide) (by decide) (by decide) (by decide) (by decide)⟩

/-- Automaton step: end of input flushes the pending cell and record. -/
theorem csvRun_nil (m : CsvMode) (field : List Char) (row : List (List Char))
    (rows : List (List (List Char))) :
    csvRun m field row rows [] = rows ++ [row ++ [field]] := by
  cases m <;> rfl

/-- Automaton step: a separator outside quotes closes the cell. -/
theorem csvRun_plain_comma (field : List Char) (row : List (List Char))
    (rows : List (List (List Char))) (rest : List Char) :
    csvRun .plain field row rows (',' :: rest) = csvRun .plain [] (row ++ [field]) rows rest := by
  simp [csvRun]

/-- Automaton step: a newline outside quotes closes the record. -/
theorem csvRun_plain_newline (field : List Char) (row : List (List Char))
    (rows : List (List (List Char))) (rest : List Char) :
    csvRun .plain field row rows ('\n' :: rest)
      = csvRun .plain [] [] (rows ++ [row ++ [field]]) rest := by
  simp [csvRun]

/-- Automaton step: a quote at the start of a cell opens quoting. -/
theorem csvRun_plain_quote_start (row : List (List Char)) (rows : List (List (List Char)))
    (rest : List Char) :
    csvRun .plain [] row rows ('"' :: rest) = csvRun .quoted [] row rows rest := by
  simp [csvRun]

/-- Automaton step: any other character extends the cell. -/
theorem csvRun_plain_other {c : Char} (h1 : c ≠ ',') (h2 : c ≠ '\n') (h3 : c ≠ '"')
    (field : List Char) (row : List (List Char)) (rows : List (List (List Char)))
    (rest : List Char) :
    csvRun .plain field row rows (c :: rest) = csvRun .plain (field ++ [c]) row rows rest := by
  simp [csvRun, h1, h2, h3]

/-- Automaton step: a quote inside quoting defers to the next character. -/
theorem csvRun_quoted_quote (field : List Char) (row : List (List Char))
    (rows : List (List (List Char))) (rest : List Char) :
    csvRun .quoted field row rows ('"' :: rest) = csvRun .quotePending field row rows rest := by
  simp [csvRun]

/-- Automaton step: any other character inside quoting extends the cell. -/
theorem csvRun_quoted_other {c : Char} (h : c ≠ '"') (field : List Char)
    (row : List (List Char)) (rows : List (List (List Char))) (rest : List Char) :
    csvRun .quoted field row rows (c :: rest) = csvRun .quoted (field ++ [c]) row rows rest := by
  simp [csvRun, h]

/-- Automaton step: a doubled quote is a literal quote. -/
theorem csvRun_qp_quote (field : List Char) (row : List (List Char))
    (rows : List (List (List Char))) (rest : List Char) :
    csvRun .quotePending field row rows ('"' :: rest)
      = csvRun .quoted (field ++ ['"']) row rows rest := by
  simp [csvRun]

/-- Automaton step: a separator after a closing quote closes the cell. -/
theorem csvRun_qp_comma (field : List Char) (row : List (List Char))
    (rows : List (List (List Char))) (rest : List Char) :
    csvRun .quotePending field row rows (',' :: rest)
      = csvRun .plain [] (row ++ [field]) rows rest := by
  simp [csvRun]

/-- Automaton step: a newline after a closing quote closes the record. -/
theorem csvRun_qp_newline (field : List Char) (row : List (List Char))
    (rows : List (List (List Char))) (rest : List Char) :
    csvRun .quotePending field row rows ('\n' :: rest)
      = csvRun .plain [] [] (rows ++ [row ++ [field]]) rest := by
  simp [csvRun]

/-- Consuming a quoted cell body: the doubled text followed by the closing
quote lands in the quote-pending state with the body appended. -/
theorem csvRun_quoted_consume :
    ∀ (s field : List Char) (row : List (List Char)) (rows : List (List (List Char)))
      (rest : List Char),
      csvRun .quoted field row rows (dubQuotes s ++ ('"' :: rest))
        = csvRun .quotePending (field ++ s) row rows rest := by
  intro s
  induction s with
  | nil =>
      intro field row rows rest
      simp [dubQuotes, csvRun_quoted_quote]
  | cons c s ih =>
      intro field row rows rest
      by_cases h : c = '"'
      · subst h
        rw [dubQuotes, if_pos rfl]
        rw [List.cons_append, List.cons_append, csvRun_quoted_quote, csvRun_qp_quote, ih]
        simp
      · rw [dubQuotes, if_neg h, List.cons_append, csvRun_quoted_other h, ih]
        simp

/-- Consuming a run of plain characters extends the pending cell. -/
theorem csvRun_plain_consume :
    ∀ (s : List Char), (∀ c ∈ s, isCsvSpecial c = false) →
      ∀ (field : List Char) (row : List (List Char)) (rows : List (List (List Char)))
        (rest : List Char),
        csvRun .plain field row rows (s ++ rest) = csvRun .plain (field ++ s) row rows rest := by
  intro s
  induction s with
  | nil =>
      intro _ field row rows rest
      simp
  | cons c s ih =>
      intro hs field row rows rest
      have hc : isCsvSpecial c = false := hs c (by simp)
      have h1 : c ≠ ',' := by
        intro hcc; rw [hcc] at hc; simp [isCsvSpecial] at hc
      have h2 : c ≠ '\n' := by
        intro hcc; rw [hcc] at hc; simp [isCsvSpecial] at hc
      have h3 : c ≠ '"' := by
        intro hcc; rw [hcc] at hc; simp [isCsvSpecial] at hc
      rw [List.cons_append, csvRun_plain_other h1 h2 h3, ih (fun d hd => hs d (by simp [hd]))]
      simp

/-- Consuming one escaped cell followed by a separator. -/
theorem csvRun_escape_comma (s : List Char) (row : List (List Char))
    (rows : List (List (List Char))) (rest : List Char) :
    csvRun .plain [] row rows (escapeCell s ++ (',' :: rest))
      = csvRun .plain [] (row ++ [s]) rows rest := by
  by_cases hq : s.any isCsvSpecial
  · rw [escapeCell, if_pos hq, List.cons_append, csvRun_plain_quote_start, List.append_assoc,
      List.singleton_append, csvRun_quoted_consume, csvRun_qp_comma]
    simp
  · rw [escapeCell, if_neg hq,
      csvRun_plain_consume s (by simpa [List.any_eq_true] using hq), csvRun_plain_comma]
    simp

/-- Consuming one escaped cell followed by a newline. -/
theorem csvRun_escape_newline (s : List Char) (row : List (List Char))
    (rows : List (List (List Char))) (rest : List Char) :
    csvRun .plain [] row rows (escapeCell s ++ ('\n' :: rest))
      = csvRun .plain [] [] (rows ++ [row ++ [s]]) rest := by
  by_cases hq : s.any isCsvSpecial
  · rw [escapeCell, if_pos hq, List.cons_append, csvRun_plain_quote_start, List.append_assoc,
      List.singleton_append, csvRun_quoted_consume, csvRun_qp_newline]
    simp
  · rw [escapeCell, if_neg hq,
      csvRun_plain_consume s (by simpa [List.any_eq_true] using hq), csvRun_plain_newline]
    simp

/-- Consuming one escaped cell at the end of input. -/
theorem csvRun_escape_end (s : List Char) (row : List (List Char))
    (rows : List (List (List Char))) :
    csvRun .plain [] row rows (escapeCell s) = rows ++ [row ++ [s]] := by
  by_cases hq : s.any isCsvSpecial
  · rw [escapeCell, if_pos hq, csvRun_plain_quote_start, csvRun_quoted_consume, csvRun_nil]
    simp
  · have := csvRun_plain_consume s (by simpa [List.any_eq_true] using hq) [] row rows []
    rw [List.append_nil] at this
    rw [escapeCell, if_neg hq, this, csvRun_nil]
    simp

/-- Consuming one whole record followed by a newline. -/
theorem csvRun_row_newline :
    ∀ (cells : List (List Char)), cells ≠ [] →
      ∀ (row : List (List Char)) (rows : List (List (List Char))) (rest : List Char),
        csvRun .plain [] row rows (writeRow cells ++ ('\n' :: rest))
          = csvRun .plain [] [] (rows ++ [row ++ cells]) rest := by
  intro cells
  induction cells with
  | nil => intro h; exact absurd rfl h
  | cons c cs ih =>
      intro _ row rows rest
      cases cs with
      | nil => rw [writeRow, csvRun_escape_newline]
      | cons c2 cs2 =>
          rw [writeRow, List.append_assoc, List.cons_append, csvRun_escape_comma,
            ih (List.cons_ne_nil c2 cs2) (row ++ [c]) rows rest]
          · simp
          · exact List.cons_ne_nil c2 cs2

/-- Consuming one whole record at the end of input. -/
theorem csvRun_row_end :
    ∀ (cells : List (List Char)), cells ≠ [] →
      ∀ (row : List (List Char)) (rows : List (List (List Char))),
        csvRun .plain [] row rows (writeRow cells) = rows ++ [row ++ cells] := by
  intro cells
  induction cells with
  | nil => intro h; exact absurd rfl h
  | cons c cs ih =>
      intro _ row rows
      cases cs with
      | nil => rw [writeRow, csvRun_escape_end]
      | cons c2 cs2 =>
          rw [writeRow, csvRun_escape_comma, ih (List.cons_ne_nil c2 cs2) (row ++ [c]) rows]
          · simp
          · exact List.cons_ne_nil c2 cs2

/-- Consuming a whole written table appends its records to the output. -/
theorem csvRun_writeCsv :
    ∀ (rl : List (List (List Char))), (∀ r ∈ rl, r ≠ []) → rl ≠ [] →
      ∀ (rows0 : List (List (List Char))),
        csvRun .plain [] [] rows0 (writeCsv rl) = rows0 ++ rl := by
  intro rl
  induction rl with
  | nil => intro _ h; exact absurd rfl h
  | cons r rs ih =>
      intro hall _ rows0
      have hr : r ≠ [] := hall r (by simp)
      cases rs with
      | nil =>
          show csvRun .plain [] [] rows0 (writeRow r) = rows0 ++ [r]
          rw [csvRun_row_end r hr]
          simp
      | cons r2 rs2 =>
          show csvRun .plain [] [] rows0 (writeRow r ++ ('\n' :: writeCsv (r2 :: rs2)))
            = rows0 ++ (r :: r2 :: rs2)
          rw [csvRun_row_newline r hr,
            ih (fun x hx => hall x (by simp [hx])) (List.cons_ne_nil r2 rs2)]
          simp

/-- Writing a table of non-empty records and re-reading it through the
loader automaton reproduces the records exactly. -/
theorem parseCsv_writeCsv (rl : List (List (List Char))) (hall : ∀ r ∈ rl, r ≠ [])
    (hne : rl ≠ []) (hw : writeCsv rl ≠ []) :
    parseCsv (writeCsv rl) = rl := by
  have hrun := csvRun_writeCsv rl hall hne []
  rcases hcs : writeCsv rl with _ | ⟨c, cs⟩
  · exact absurd hcs hw
  · rw [hcs] at hrun
    show csvRun .plain [] [] [] (c :: cs) = rl
    simpa using hrun

/-- Escaping keeps a non-empty cell non-empty. -/
theorem escapeCell_ne_nil {s : List Char} (h : s ≠ []) : escapeCell s ≠ [] := by
  rw [escapeCell]
  split <;> simp [h]

/-- A record whose first cell is non-empty writes to non-empty text. -/
theorem writeRow_ne_nil {c : List Char} {cs : List (List Char)} (h : c ≠ []) :
    writeRow (c :: cs) ≠ [] := by
  cases cs with
  | nil => exact escapeCell_ne_nil h
  | cons c2 cs2 =>
      show escapeCell c ++ (',' :: writeRow (c2 :: cs2)) ≠ []
      simp

/-- A table whose first record writes non-empty text writes to non-empty
text. -/
theorem writeCsv_ne_nil {r : List (List Char)} {rs : List (List (List Char))}
    (h : writeRow r ≠ []) : writeCsv (r :: rs) ≠ [] := by
  cases rs with
  | nil => exact h
  | cons r2 rs2 =>
      show writeRow r ++ ('\n' :: writeCsv (r2 :: rs2)) ≠ []
      simp

/-- A non-empty string has a non-empty character list. -/
theorem data_ne_nil {s : String} (h : s ≠ "") : s.data ≠ [] := by
  intro hc
  apply h
  apply String.ext
  rw [hc]

/-- Claim C9: exporting the processed frame with `to_csv` and re-reading
the text through the delimited-text loader reproduces the table exactly —
the header record and every data record with the same field values. -/
theorem C9_export_roundtrip (f : Frame) (hne : f ≠ []) (hnames : ∀ p ∈ f, p.1 ≠ "") :
    parseCsv (convert_df f) = renderHeader f :: renderRows f := by
  apply parseCsv_writeCsv
  · intro r hr
    rcases List.mem_cons.mp hr with rfl | hr'
    · simp only [renderHeader, ne_eq, List.map_eq_nil_iff]
      exact hne
    · rw [renderRows] at hr'
      obtain ⟨i, _, hEq⟩ := List.mem_map.mp hr'
      rw [← hEq]
      simp only [ne_eq, List.map_eq_nil_iff]
      exact hne
  · simp
  · cases f with
    | nil => exact absurd rfl hne
    | cons p ps =>
        apply writeCsv_ne_nil
        show writeRow (p.1.data :: ps.map fun q => q.1.data) ≠ []
        apply writeRow_ne_nil
        exact data_ne_nil (hnames p (by simp))

/-- Claim C9 witness: the round-trip on the sample frame (whose category
cells exercise separator and quote escaping). -/
theorem C9_witness :
    (sampleFrame ≠ [] ∧ ∀ p ∈ sampleFrame, p.1 ≠ "")
  ∧ parseCsv (convert_df sampleFrame) = renderHeader sampleFrame :: renderRows sampleFrame :=
  ⟨⟨by decide, by decide⟩, C9_export_roundtrip sampleFrame (by decide) (by decide)⟩

/-- Claim C10 witness: the scenario table has a negative expense sum and
its displayed Net Savings is the sum of the two other displayed figures. -/
theorem C10_witness :
    total_expenses scenarioTable < 0
  ∧ displayed_net_savings scenarioTable
      = displayed_total_income scenarioTable + displayed_total_expenses scenarioTable :=
  ⟨by with_unfolding_all decide,
   (C10_displayed_net_adds_expenses scenarioTable).2.2 (by with_unfolding_all decide)⟩

end FinanceTracker
